import Mathlib

/-
Verification of the gotail library (file-follow / tail -f state machine).

The model below is a shallow embedding of src/gotail.go (plus the two
platform openFile files).  Machine-level details that the claims do not
touch (goroutine scheduling, fsnotify transport, the timer goroutine's
sleep) are abstracted into explicit traces of outcomes; every function
here mirrors a concrete piece of the Go source, cited by line numbers.
-/

namespace GotailSpec

/-
LineReader model (gotail.go 201-213, readLines; bufio.Reader.ReadString).

A reader over a growing file is represented by the list of bytes that are
available but not yet consumed (`rem`).  Appending to the file appends to
`rem`; seeking to end-of-file makes `rem` empty.
-/

/-- Model of strings.TrimRight(line, "\x5cn"): remove every trailing
newline character. -/
def trimRightNL (s : List Char) : List Char :=
  (s.reverse.dropWhile (fun c => c = '\n')).reverse

/-- Model of bufio.Reader.ReadString applied to the reader's available
bytes: returns (consumed bytes up to and including the first newline,
remaining bytes, eof flag).  When no newline is available the whole
input is consumed and returned together with eof = true, exactly as
ReadString returns the data read so far together with io.EOF. -/
def readStringNL : List Char → List Char × List Char × Bool
  | [] => ([], [], true)
  | c :: rest =>
    if c = '\n' then ([c], rest, false)
    else ((c :: (readStringNL rest).1, (readStringNL rest).2))

/-- Model of one call of Tail.readLines (gotail.go 201-213): one
ReadString; on io.EOF return without emitting (the consumed partial data
is discarded); otherwise emit the line with trailing newlines trimmed.
Returns (new remaining bytes, emitted line if any). -/
def readLines (rem : List Char) : List Char × Option (List Char) :=
  match readStringNL rem with
  | (line, r, eof) => if eof then (r, none) else (r, some (trimRightNL line))

/-- The complete newline-terminated lines of a byte sequence (newline
stripped), together with the trailing partial line.  Specification-side
view of a file's content, used to compare emissions with the file. -/
def splitLines : List Char → List (List Char) × List Char
  | [] => ([], [])
  | c :: rest =>
    if c = '\n' then
      ([] :: (splitLines rest).1, (splitLines rest).2)
    else
      match (splitLines rest).1 with
      | [] => ([], c :: (splitLines rest).2)
      | l :: ls2 => ((c :: l) :: ls2, (splitLines rest).2)

/-- All bytes appended over a trace of (appended bytes, Write-bit) events. -/
def totalApp : List (List Char × Bool) → List Char
  | [] => []
  | e :: rest => e.1 ++ totalApp rest

/-- The watch loop of gotail.go 164-194 restricted to non-disruptive
events: each trace entry appends bytes to the file and then delivers an
event whose Write bit is the Bool; a Write event triggers exactly one
readLines call (gotail.go 178-180).  Returns (emitted lines in order,
final remaining bytes of the reader). -/
def runWrites : List (List Char × Bool) → List Char → List (List Char) × List Char
  | [], rem => ([], rem)
  | e :: rest, rem =>
    if e.2 then
      match readLines (rem ++ e.1) with
      | (r, some l) => (l :: (runWrites rest r).1, (runWrites rest r).2)
      | (r, none) => runWrites rest r
    else runWrites rest (rem ++ e.1)

/-- Start of the goroutine spawned by watchFile (gotail.go 158-162):
if newFile, a single readLines call is made before entering the event
loop.  Returns (initially emitted lines, remaining reader bytes). -/
def watchStart (newFile : Bool) (rem : List Char) : List (List Char) × List Char :=
  if newFile then
    match readLines rem with
    | (r, some l) => ([l], r)
    | (r, none) => ([], r)
  else ([], rem)

/- Open / seek model (gotail.go 111-138, openFile; platform openFile). -/

/-- Error kinds relevant to the open path: os.IsNotExist versus any
other error. -/
inductive OpenError where
  | notFound
  | other
deriving DecidableEq

/-- Model of Tail.openFile (gotail.go 117-138) on a filesystem where the
followed path holds `fs` (none = absent): on success the reader's
available bytes are the whole content when newFile is true (no seek) and
empty when newFile is false (Seek(0, 2) to end-of-file). -/
def openFile (fs : Option (List Char)) (newFile : Bool) : Except OpenError (List Char) :=
  match fs with
  | none => Except.error OpenError.notFound
  | some content => Except.ok (if newFile then content else [])

/- Event dispatch (gotail.go 164-194). -/

/-- An fsnotify event's operation bitmask. -/
structure FsOp where
  create : Bool
  write : Bool
  remove : Bool
  rename : Bool
  chmod : Bool
deriving DecidableEq

/-- evt.Op AND (Create OR Rename OR Remove) is nonzero (gotail.go 173). -/
def disruptive (op : FsOp) : Bool := op.create || op.rename || op.remove

/-- Outcome of one iteration of the watch loop on a received event:
either log.Fatalln was reached (the whole process is terminated,
gotail.go 175), or the loop continues with an optional emitted line and
the reader's new remaining bytes. -/
inductive IterOutcome where
  | processTerminated (e : OpenError)
  | continued (emitted : Option (List Char)) (rem : List Char)
deriving DecidableEq

/-- One iteration of the watch loop on an event (gotail.go 167-180):
a disruptive event runs openAndWatch — whose outcome is the `reopen`
argument (an error, or the reader bytes installed by the re-open) — and
on error calls log.Fatalln, terminating the process; then a Write bit
triggers one readLines call. -/
def watchIter (op : FsOp) (reopen : Except OpenError (List Char))
    (rem : List Char) : IterOutcome :=
  if disruptive op then
    match reopen with
    | Except.error e => IterOutcome.processTerminated e
    | Except.ok rem2 =>
      if op.write then
        match readLines rem2 with
        | (r, l) => IterOutcome.continued l r
      else IterOutcome.continued none rem2
  else if op.write then
    match readLines rem with
    | (r, l) => IterOutcome.continued l r
  else IterOutcome.continued none rem

/- Startup retry loop (gotail.go 61-109, openAndWatch; NewTail 34-48). -/

/-- Outcome of one openFile call inside the retry loop. -/
inductive OpenOutcome where
  | ok
  | errNotFound
  | errOther
deriving DecidableEq

/-- One iteration of the retry loop: the openFile outcome and, when open
succeeded, whether watchFile succeeded. -/
structure Attempt where
  openO : OpenOutcome
  watchOk : Bool
deriving DecidableEq

/-- One iteration of the loop body of openAndWatch (gotail.go 67-91),
for timeoutZero = (t.config.Timeout == 0).  Result: (some v, nf) when
the loop sends v on the timeout channel and breaks (v = none for
success, some e for an error), (none, nf) when it continues, with nf the
updated newFile flag. -/
def loopIter (timeoutZero : Bool) (a : Attempt) (nf : Bool) :
    Option (Option OpenError) × Bool :=
  match a.openO with
  | OpenOutcome.errNotFound =>
    let nf2 := if nf = false then true else nf
    if timeoutZero then (some (some OpenError.notFound), nf2) else (none, nf2)
  | OpenOutcome.errOther =>
    if timeoutZero then (some (some OpenError.other), nf) else (none, nf)
  | OpenOutcome.ok =>
    if a.watchOk then (some none, nf) else (none, nf)

/-- The retry loop run over a finite trace of attempt outcomes.  Result
(some v, nf): the loop broke having sent v; (none, nf): the loop is
still running after consuming the trace. -/
def runLoop (tz : Bool) : List Attempt → Bool → Option (Option OpenError) × Bool
  | [], nf => (none, nf)
  | a :: rest, nf =>
    match loopIter tz a nf with
    | (some r, nf2) => (some r, nf2)
    | (none, nf2) => runLoop tz rest nf2

/-- NewTail with Config.Timeout = 0 (gotail.go 34-48, 93-106): no timer
goroutine runs, so NewTail returns exactly the value the retry loop
sends; none means the loop is still running and NewTail has not
returned.  newFile starts at false (zero value, gotail.go 63). -/
def newTailZero (attempts : List Attempt) : Option (Option OpenError) :=
  (runLoop true attempts false).1

/- Resource lifecycle (gotail.go 117-122, 142-148). -/

/-- Outcome of the os.Open / Seek pair in openFile. -/
inductive OpenFileRes where
  | ok
  | openErr
  | seekErr
deriving DecidableEq

/-- Outcome of the NewWatcher / Add pair in watchFile. -/
inductive WatchRes where
  | ok
  | newErr
  | addErr
deriving DecidableEq

/-- Resource state of a Tail: whether t.file and t.watcher are non-nil,
and how many opened file handles and watchers have not been closed. -/
structure RState where
  hasFile : Bool
  hasWatcher : Bool
  liveFiles : Nat
  liveWatchers : Nat
deriving DecidableEq

/-- State of a freshly constructed Tail (gotail.go 35-39). -/
def initRState : RState := ⟨false, false, 0, 0⟩

/-- Resource effect of openFile (gotail.go 118-125): close the previous
handle if present, then os.Open — on error t.file becomes nil; on
success (or a later Seek error) the new handle is live and assigned. -/
def openFileStep (res : OpenFileRes) (s : RState) : RState :=
  let s1 := if s.hasFile then
    { s with liveFiles := s.liveFiles - 1, hasFile := false } else s
  match res with
  | OpenFileRes.openErr => { s1 with hasFile := false }
  | _ => { s1 with hasFile := true, liveFiles := s1.liveFiles + 1 }

/-- Resource effect of watchFile (gotail.go 143-156): close the previous
watcher if present, then NewWatcher — on error t.watcher becomes nil; on
success (or a later Add error) the new watcher is live and assigned. -/
def watchFileStep (res : WatchRes) (s : RState) : RState :=
  let s1 := if s.hasWatcher then
    { s with liveWatchers := s.liveWatchers - 1, hasWatcher := false } else s
  match res with
  | WatchRes.newErr => { s1 with hasWatcher := false }
  | _ => { s1 with hasWatcher := true, liveWatchers := s1.liveWatchers + 1 }

/-- Any interleaving of openFile and watchFile calls with arbitrary
outcomes, applied to a resource state. -/
def resourceRun : List (OpenFileRes ⊕ WatchRes) → RState → RState
  | [], s => s
  | Sum.inl r :: rest, s => resourceRun rest (openFileStep r s)
  | Sum.inr r :: rest, s => resourceRun rest (watchFileStep r s)

/-- The live-handle counters agree exactly with the non-nil flags. -/
def resInv (s : RState) : Prop :=
  s.liveFiles = (if s.hasFile then 1 else 0) ∧
  s.liveWatchers = (if s.hasWatcher then 1 else 0)

/- Basic reader lemmas. -/

lemma readStringNL_of_not_mem (rem : List Char) (h : '\n' ∉ rem) :
    readStringNL rem = (rem, [], true) := by
  induction rem with
  | nil => rfl
  | cons c rest ih =>
    have hc : ¬ c = '\n' := fun hcc => h (hcc ▸ List.mem_cons_self c rest)
    have hrest : '\n' ∉ rest := fun hm => h (List.mem_cons_of_mem c hm)
    simp [readStringNL, hc, ih hrest]

lemma readStringNL_append (l r : List Char) (h : '\n' ∉ l) :
    readStringNL (l ++ '\n' :: r) = (l ++ ['\n'], r, false) := by
  induction l with
  | nil => simp [readStringNL]
  | cons c rest ih =>
    have hc : ¬ c = '\n' := fun hcc => h (hcc ▸ List.mem_cons_self c rest)
    have hrest : '\n' ∉ rest := fun hm => h (List.mem_cons_of_mem c hm)
    simp [readStringNL, hc, ih hrest]

lemma dropWhile_nl_of_not_mem (xs : List Char) (h : '\n' ∉ xs) :
    xs.dropWhile (fun c => c = '\n') = xs := by
  cases xs with
  | nil => rfl
  | cons c t =>
    have hc : ¬ c = '\n' := fun hcc => h (hcc ▸ List.mem_cons_self c t)
    simp [List.dropWhile_cons, hc]

lemma trimRightNL_append_nl (l : List Char) (h : '\n' ∉ l) :
    trimRightNL (l ++ ['\n']) = l := by
  unfold trimRightNL
  rw [List.reverse_append]
  have h1 : (['\n'] : List Char).reverse = ['\n'] := rfl
  rw [h1, List.singleton_append]
  have h2 : (('\n' :: l.reverse).dropWhile (fun c => c = '\n'))
      = l.reverse.dropWhile (fun c => c = '\n') := by
    simp [List.dropWhile_cons]
  rw [h2, dropWhile_nl_of_not_mem l.reverse (by simpa using h), List.reverse_reverse]

lemma readLines_line (l r : List Char) (h : '\n' ∉ l) :
    readLines (l ++ '\n' :: r) = (r, some l) := by
  simp [readLines, readStringNL_append l r h, trimRightNL_append_nl l h]

lemma readStringNL_split (rem : List Char) :
    rem = (readStringNL rem).1 ++ (readStringNL rem).2.1 := by
  induction rem with
  | nil => rfl
  | cons c rest ih =>
    by_cases hc : c = '\n'
    · subst hc; simp [readStringNL]
    · simpa [readStringNL, hc] using ih

lemma splitLines_cons_line (l r : List Char) (h : '\n' ∉ l) :
    splitLines (l ++ '\n' :: r) = (l :: (splitLines r).1, (splitLines r).2) := by
  induction l with
  | nil => simp [splitLines]
  | cons c rest ih =>
    have hc : ¬ c = '\n' := fun hcc => h (hcc ▸ List.mem_cons_self c rest)
    have hrest : '\n' ∉ rest := fun hm => h (List.mem_cons_of_mem c hm)
    simp [splitLines, hc, ih hrest]

lemma splitLines_nil (rem : List Char) (h : (splitLines rem).1 = []) :
    '\n' ∉ rem ∧ (splitLines rem).2 = rem := by
  induction rem with
  | nil => simp [splitLines]
  | cons c rest ih =>
    by_cases hc : c = '\n'
    · subst hc; simp [splitLines] at h
    · rcases hr : (splitLines rest).1 with _ | ⟨l, ls⟩
      · rcases ih hr with ⟨ih1, ih2⟩
        constructor
        · intro hm
          rcases List.mem_cons.mp hm with h1 | h1
          · exact hc h1.symm
          · exact ih1 h1
        · simp [splitLines, hc, hr, ih2]
      · exfalso
        simp [splitLines, hc, hr] at h

lemma splitLines_cons_line_inv (rem : List Char) (l : List Char)
    (ls : List (List Char)) (h : (splitLines rem).1 = l :: ls) :
    ∃ r, rem = l ++ '\n' :: r ∧ '\n' ∉ l ∧
      splitLines r = (ls, (splitLines rem).2) := by
  induction rem generalizing l ls with
  | nil => simp [splitLines] at h
  | cons c rest ih =>
    by_cases hc : c = '\n'
    · subst hc
      have h1 : splitLines ('\n' :: rest)
          = ([] :: (splitLines rest).1, (splitLines rest).2) := by
        simp [splitLines]
      rw [h1] at h
      simp only [List.cons.injEq] at h
      rcases h with ⟨hl, hls⟩
      refine ⟨rest, by rw [← hl]; rfl, by rw [← hl]; simp, ?_⟩
      rw [h1, ← hls]
    · rcases hr : (splitLines rest).1 with _ | ⟨l0, ls0⟩
      · simp [splitLines, hc, hr] at h
      · have hstep : splitLines (c :: rest)
            = ((c :: l0) :: ls0, (splitLines rest).2) := by
          simp [splitLines, hc, hr]
        rw [hstep] at h
        simp only [List.cons.injEq] at h
        rcases h with ⟨hl, hls⟩
        rcases ih l0 ls0 hr with ⟨r, hrm, hnl, hsp⟩
        refine ⟨r, ?_, ?_, ?_⟩
        · rw [← hl, hrm]; rfl
        · rw [← hl]
          intro hm
          rcases List.mem_cons.mp hm with h1 | h1
          · exact hc h1.symm
          · exact hnl h1
        · rw [hstep, ← hls, hsp]

lemma readLines_none (rem : List Char) (h : (splitLines rem).1 = []) :
    readLines rem = ([], none) := by
  rcases splitLines_nil rem h with ⟨h1, _⟩
  simp [readLines, readStringNL_of_not_mem rem h1]

lemma splitLines_append (a b : List Char) (h : (splitLines a).2 = []) :
    splitLines (a ++ b)
      = ((splitLines a).1 ++ (splitLines b).1, (splitLines b).2) := by
  induction a with
  | nil => simp [splitLines]
  | cons c rest ih =>
    by_cases hc : c = '\n'
    · subst hc
      have h2 : (splitLines rest).2 = [] := by simpa [splitLines] using h
      simp [splitLines, ih h2]
    · rcases hr : (splitLines rest).1 with _ | ⟨l0, ls0⟩
      · exfalso
        simp [splitLines, hc, hr] at h
      · have h2 : (splitLines rest).2 = [] := by
          have h3 := h
          simp [splitLines, hc, hr] at h3
          exact h3
        simp [splitLines, hc, hr, ih h2]

lemma runWrites_conserves (T : List (List Char × Bool)) :
    ∀ rem, (splitLines rem).2 = [] →
    (∀ x ∈ T, (splitLines x.1).2 = []) →
    (runWrites T rem).1 ++ (splitLines (runWrites T rem).2).1
      = (splitLines (rem ++ totalApp T)).1 := by
  induction T with
  | nil =>
    intro rem _ _
    simp [runWrites, totalApp]
  | cons e rest ih =>
    intro rem hrem hT
    have happ : (splitLines e.1).2 = [] := hT e (List.mem_cons_self e rest)
    have hrest : ∀ x ∈ rest, (splitLines x.1).2 = [] :=
      fun x hx => hT x (List.mem_cons_of_mem e hx)
    have hrem1 : (splitLines (rem ++ e.1)).2 = [] := by
      rw [splitLines_append rem e.1 hrem]; exact happ
    have htot : rem ++ totalApp (e :: rest) = (rem ++ e.1) ++ totalApp rest := by
      simp [totalApp, List.append_assoc]
    by_cases hw : e.2 = true
    · rcases hfl : (splitLines (rem ++ e.1)).1 with _ | ⟨l, ls⟩
      · have hrl := readLines_none (rem ++ e.1) hfl
        have hrun : runWrites (e :: rest) rem = runWrites rest [] := by
          simp [runWrites, hw, hrl]
        rw [hrun, ih [] (by simp [splitLines]) hrest, htot,
          splitLines_append _ _ hrem1, hfl]
        simp
      · rcases splitLines_cons_line_inv (rem ++ e.1) l ls hfl with
          ⟨r, hdec, hnl, hsp⟩
        have hrl : readLines (rem ++ e.1) = (r, some l) := by
          rw [hdec]; exact readLines_line l r hnl
        have hr2 : (splitLines r).2 = [] := by
          rw [hsp]; exact hrem1
        have hrun : runWrites (e :: rest) rem
            = (l :: (runWrites rest r).1, (runWrites rest r).2) := by
          simp [runWrites, hw, hrl]
        rw [hrun]
        simp only [List.cons_append]
        rw [ih r hr2 hrest, htot, hdec, List.append_assoc]
        rw [show ('\n' :: r) ++ totalApp rest = '\n' :: (r ++ totalApp rest) from rfl]
        rw [splitLines_cons_line l _ hnl]
    · have hw2 : e.2 = false := by simpa using hw
      have hrun : runWrites (e :: rest) rem = runWrites rest (rem ++ e.1) := by
        simp [runWrites, hw2]
      rw [hrun, ih (rem ++ e.1) hrem1 hrest, htot]

/- Retry-loop lemmas (openAndWatch). -/

lemma loopIter_snd (tz : Bool) (a : Attempt) (nf : Bool) :
    (loopIter tz a nf).2 = (if a.openO = OpenOutcome.errNotFound then true else nf) := by
  rcases a with ⟨o, w⟩
  cases o <;> cases w <;> cases tz <;> cases nf <;> simp [loopIter]

lemma runLoop_true_snd (tz : Bool) (attempts : List Attempt) :
    (runLoop tz attempts true).2 = true := by
  induction attempts with
  | nil => rfl
  | cons a rest ih =>
    have hs : (loopIter tz a true).2 = true := by
      rw [loopIter_snd]; cases ha : a.openO <;> simp
    rcases hl : loopIter tz a true with ⟨o, nf2⟩
    have hnf2 : nf2 = true := by rw [hl] at hs; exact hs
    cases o with
    | some r => simp [runLoop, hl, hnf2]
    | none => simp [runLoop, hl, hnf2, ih]

lemma runLoop_all_watch_fail (attempts : List Attempt) (nf : Bool)
    (h : ∀ x ∈ attempts, x.openO = OpenOutcome.ok ∧ x.watchOk = false) :
    runLoop true attempts nf = (none, nf) := by
  induction attempts with
  | nil => rfl
  | cons a rest ih =>
    rcases h a (List.mem_cons_self a rest) with ⟨ho, hw⟩
    have hiter : loopIter true a nf = (none, nf) := by simp [loopIter, ho, hw]
    have hrest : ∀ x ∈ rest, x.openO = OpenOutcome.ok ∧ x.watchOk = false :=
      fun x hx => h x (List.mem_cons_of_mem a hx)
    simp [runLoop, hiter, ih hrest]

lemma runLoop_false_no_error (attempts : List Attempt) (nf : Bool)
    (e : OpenError) : (runLoop false attempts nf).1 ≠ some (some e) := by
  induction attempts generalizing nf with
  | nil => simp [runLoop]
  | cons a rest ih =>
    cases ha : a.openO with
    | errNotFound =>
      have : loopIter false a nf = (none, if nf = false then true else nf) := by
        simp [loopIter, ha]
      simp [runLoop, this, ih]
    | errOther =>
      have : loopIter false a nf = (none, nf) := by simp [loopIter, ha]
      simp [runLoop, this, ih]
    | ok =>
      cases hw : a.watchOk with
      | true =>
        have : loopIter false a nf = (some none, nf) := by simp [loopIter, ha, hw]
        simp [runLoop, this]
      | false =>
        have : loopIter false a nf = (none, nf) := by simp [loopIter, ha, hw]
        simp [runLoop, this, ih]

/- Resource-lifecycle lemmas. -/

lemma resInv_openFileStep (res : OpenFileRes) (s : RState) (h : resInv s) :
    resInv (openFileStep res s) := by
  rcases s with ⟨hf, hw, lf, lw⟩
  rcases h with ⟨h1, h2⟩
  cases res <;> cases hf <;>
    simp_all [openFileStep, resInv]

lemma resInv_watchFileStep (res : WatchRes) (s : RState) (h : resInv s) :
    resInv (watchFileStep res s) := by
  rcases s with ⟨hf, hw, lf, lw⟩
  rcases h with ⟨h1, h2⟩
  cases res <;> cases hw <;>
    simp_all [watchFileStep, resInv]

lemma resInv_run (ops : List (OpenFileRes ⊕ WatchRes)) (s : RState) (h : resInv s) :
    resInv (resourceRun ops s) := by
  induction ops generalizing s with
  | nil => exact h
  | cons op rest ih =>
    cases op with
    | inl r => exact ih (openFileStep r s) (resInv_openFileStep r s h)
    | inr r => exact ih (watchFileStep r s) (resInv_watchFileStep r s h)

/- Claim theorems. -/

/-- C1: the seek policy of openFile holds as specified (not fresh: seek to
end-of-file, nothing of the existing content is available to the reader;
fresh: no seek, the reader starts at offset 0), but the fresh-file
initial drain is a single readLines call: on existing content "a\nb\n"
only the line "a" is emitted initially, not all existing content, so the
drain half of the claim fails on the code. -/
theorem c1_seek_and_initial_drain :
    (∀ content, openFile (some content) false = Except.ok [])
    ∧ (∀ content, openFile (some content) true = Except.ok content)
    ∧ watchStart true ['a', '\n', 'b', '\n'] = ([['a']], ['b', '\n'])
    ∧ watchStart true ['a', '\n', 'b', '\n'] ≠ ([['a'], ['b']], []) :=
  ⟨fun _ => rfl, fun _ => rfl, by decide, by decide⟩

/-- C2: a single append of the two lines "a\n" "b\n" followed by exactly
one Write event makes the code emit only the first line "a"; the second
line stays buffered, so the claim (both lines eventually emitted from
the one event) fails on the code. -/
theorem c2_single_write_event :
    runWrites [(['a', '\n', 'b', '\n'], true)] [] = ([['a']], ['b', '\n'])
    ∧ ([['a']] : List (List Char)) ≠ [['a'], ['b']] := by
  decide

/-- C3 counterexample: with timeout 0, a failed watch step is not fatal —
after an attempt whose open succeeded and watch failed, NewTail has not
returned (nothing was sent on the completion channel), and on the next
attempt the loop retries and succeeds.  This falsifies "a single failure
of the open-or-watch step is fatal ... no retry". -/
theorem c3_watch_failure_not_fatal :
    newTailZero [⟨OpenOutcome.ok, false⟩] = none
    ∧ newTailZero [⟨OpenOutcome.ok, false⟩, ⟨OpenOutcome.ok, true⟩] = some none := by
  decide

/-- C3 (amended): with timeout 0, a single failure of the open step is
fatal: NewTail returns that error immediately, ignoring all later
attempts; in particular a not-found open error is returned as the
not-found error. -/
theorem c3_open_failure_fatal (a : Attempt) (rest : List Attempt)
    (h : a.openO ≠ OpenOutcome.ok) :
    newTailZero (a :: rest) =
      some (some (if a.openO = OpenOutcome.errNotFound
        then OpenError.notFound else OpenError.other)) := by
  cases ha : a.openO with
  | errNotFound => simp [newTailZero, runLoop, loopIter, ha]
  | errOther => simp [newTailZero, runLoop, loopIter, ha]
  | ok => exact absurd ha h

theorem c3_open_failure_fatal_witness :
    (⟨OpenOutcome.errNotFound, true⟩ : Attempt).openO ≠ OpenOutcome.ok
    ∧ newTailZero [⟨OpenOutcome.errNotFound, true⟩, ⟨OpenOutcome.ok, true⟩] =
      some (some (if (⟨OpenOutcome.errNotFound, true⟩ : Attempt).openO
        = OpenOutcome.errNotFound then OpenError.notFound else OpenError.other)) :=
  ⟨by decide, c3_open_failure_fatal ⟨OpenOutcome.errNotFound, true⟩
    [⟨OpenOutcome.ok, true⟩] (by decide)⟩

/-- C4 counterexample: with timeout 0 the loop gives up on the very first
open failure and NewTail returns the error, even though the next attempt
would have succeeded — falsifying "retries the open-and-watch loop
indefinitely until success". -/
theorem c4_gives_up_on_open_failure :
    newTailZero [⟨OpenOutcome.errNotFound, true⟩, ⟨OpenOutcome.ok, true⟩] =
      some (some OpenError.notFound)
    ∧ runLoop true [(⟨OpenOutcome.ok, true⟩ : Attempt)] false = (some none, false) := by
  decide

/-- C4 (amended): with timeout 0 the loop retries only watch-step
failures — over any trace of watch failures it keeps running (no timer
can end it) — while with a non-zero timeout the loop itself never breaks
with an error (errors reach NewTail only through the timer), i.e. it
retries open failures indefinitely until success. -/
theorem c4_retry_policy :
    (∀ attempts nf, (∀ x ∈ attempts, x.openO = OpenOutcome.ok ∧ x.watchOk = false) →
      runLoop true attempts nf = (none, nf))
    ∧ ∀ attempts nf e, (runLoop false attempts nf).1 ≠ some (some e) :=
  ⟨runLoop_all_watch_fail, runLoop_false_no_error⟩

theorem c4_retry_policy_witness :
    runLoop true [⟨OpenOutcome.ok, false⟩, ⟨OpenOutcome.ok, false⟩] false = (none, false)
    ∧ (runLoop false [⟨OpenOutcome.errNotFound, true⟩] false).1 ≠
      some (some OpenError.notFound) :=
  ⟨c4_retry_policy.1 [⟨OpenOutcome.ok, false⟩, ⟨OpenOutcome.ok, false⟩] false
    (by decide), c4_retry_policy.2 [⟨OpenOutcome.errNotFound, true⟩] false
    OpenError.notFound⟩

/-- C5: for each disruptive event kind (Create, Rename, Remove), when the
triggered re-open fails the watch loop reaches log.Fatalln and the whole
process is terminated; no error ever reaches the consumer — contradicting
the claim that the failure is escalated without terminating the host. -/
theorem c5_reopen_failure_kills_process :
    watchIter ⟨true, false, false, false, false⟩
      (Except.error OpenError.notFound) [] =
      IterOutcome.processTerminated OpenError.notFound
    ∧ watchIter ⟨false, false, false, true, false⟩
      (Except.error OpenError.other) [] =
      IterOutcome.processTerminated OpenError.other
    ∧ watchIter ⟨false, false, true, false, false⟩
      (Except.error OpenError.notFound) [] =
      IterOutcome.processTerminated OpenError.notFound := by
  decide

/-- C6 counterexample: appending the partial line "ab" (one Write event)
and then "c\n" (another Write event) makes the code emit the single line
"c", although the file's only complete line is "abc" — an emitted line
that is not a complete line of the file, falsifying "every emitted line
is complete". -/
theorem c6_incomplete_line_emitted :
    runWrites [(['a', 'b'], true), (['c', '\n'], true)] [] = ([['c']], [])
    ∧ (splitLines (totalApp [(['a', 'b'], true), (['c', '\n'], true)])).1
      = [['a', 'b', 'c']]
    ∧ (['c'] : List Char) ≠ ['a', 'b', 'c'] := by
  decide

/-- C6 (amended): appending "foobar\n" to a pre-existing file (reader at
end-of-file) and delivering a Write event emits exactly the one line
"foobar", with further events emitting nothing more; and over any event
trace whose appends are all newline-terminated, the emitted lines
followed by the complete lines still pending in the reader are exactly
the complete lines of the whole appended content — so every emitted line
is a complete, newline-stripped file line and lines are emitted in file
order. -/
theorem c6_complete_lines_in_order (T : List (List Char × Bool))
    (h : ∀ x ∈ T, (splitLines x.1).2 = []) :
    runWrites [(['f', 'o', 'o', 'b', 'a', 'r', '\n'], true), ([], true)] []
      = ([['f', 'o', 'o', 'b', 'a', 'r']], [])
    ∧ (runWrites T []).1 ++ (splitLines (runWrites T []).2).1
      = (splitLines (totalApp T)).1 :=
  ⟨by decide, by
    have h2 := runWrites_conserves T [] (by simp [splitLines]) h
    simpa using h2⟩

theorem c6_complete_lines_in_order_witness :
    (∀ x ∈ [((['x', '\n'] : List Char), true)], (splitLines x.1).2 = [])
    ∧ (runWrites [(['x', '\n'], true)] []).1
        ++ (splitLines (runWrites [(['x', '\n'], true)] []).2).1
      = (splitLines (totalApp [(['x', '\n'], true)])).1 :=
  ⟨by decide, (c6_complete_lines_in_order [(['x', '\n'], true)] (by decide)).2⟩

/-- C7 counterexample: with "ab" available (no newline), ReadString
consumes both bytes and readLines discards them — nothing is emitted and
nothing is retained — and over a continued run the bytes "ab" never
appear in any emitted line, falsifying "no read bytes are ever silently
dropped". -/
theorem c7_partial_bytes_dropped :
    readStringNL ['a', 'b'] = (['a', 'b'], [], true)
    ∧ readLines ['a', 'b'] = ([], none)
    ∧ runWrites [(['a', 'b'], true), (['c', 'd', '\n'], true)] [] =
      ([['c', 'd']], []) := by
  decide

/-- C7 (amended): in every readLines call the available bytes split
exactly into the bytes ReadString consumed plus the bytes retained for
later reads; when ReadString found a newline the consumed bytes are
delivered as the emitted line (trailing newlines stripped), but when it
hit end-of-data first (eof) the consumed bytes are discarded — read
bytes are dropped exactly in that eof case. -/
theorem c7_byte_accounting (rem : List Char) :
    rem = (readStringNL rem).1 ++ (readStringNL rem).2.1
    ∧ ((readStringNL rem).2.2 = true →
        readLines rem = ((readStringNL rem).2.1, none))
    ∧ ((readStringNL rem).2.2 = false →
        readLines rem =
          ((readStringNL rem).2.1, some (trimRightNL (readStringNL rem).1))) := by
  refine ⟨readStringNL_split rem, ?_, ?_⟩ <;>
    rcases hr : readStringNL rem with ⟨line, r, eof⟩ <;>
      intro he <;> simp at he <;> subst he <;> simp [readLines, hr]

theorem c7_byte_accounting_witness :
    ((['a', 'b'] : List Char)
      = (readStringNL ['a', 'b']).1 ++ (readStringNL ['a', 'b']).2.1)
    ∧ readLines ['a', 'b'] = ((readStringNL ['a', 'b']).2.1, none)
    ∧ readLines ['x', '\n'] =
      ((readStringNL ['x', '\n']).2.1,
        some (trimRightNL (readStringNL ['x', '\n']).1)) :=
  ⟨(c7_byte_accounting ['a', 'b']).1,
   (c7_byte_accounting ['a', 'b']).2.1 (by decide),
   (c7_byte_accounting ['x', '\n']).2.2 (by decide)⟩

/-- C8: the fresh-file flag after one loop iteration is true exactly when
it was already true or the open attempt failed with not-found (so a
not-found failure sets it and nothing ever clears it); once true it is
still true whenever the loop ends; and a successful open with the flag
set reads from offset 0 (no seek). -/
theorem c8_fresh_flag_monotone :
    (∀ tz a nf, (loopIter tz a nf).2 =
      (if a.openO = OpenOutcome.errNotFound then true else nf))
    ∧ (∀ tz attempts, (runLoop tz attempts true).2 = true)
    ∧ ∀ content, openFile (some content) true = Except.ok content :=
  ⟨loopIter_snd, runLoop_true_snd, fun _ => rfl⟩

/-- C9: starting from a fresh Tail, after any interleaving of openFile
and watchFile calls with any outcomes, at most one file handle and at
most one watcher are live — each call closes the previous resource
before (or instead of) installing a new one. -/
theorem c9_at_most_one_live_triple (ops : List (OpenFileRes ⊕ WatchRes)) :
    (resourceRun ops initRState).liveFiles ≤ 1
    ∧ (resourceRun ops initRState).liveWatchers ≤ 1 := by
  have h := resInv_run ops initRState (by constructor <;> rfl)
  rcases h with ⟨h1, h2⟩
  constructor
  · rw [h1]; cases (resourceRun ops initRState).hasFile <;> simp
  · rw [h2]; cases (resourceRun ops initRState).hasWatcher <;> simp

/-- C10: a line terminated by a carriage return and newline is emitted
with only the newline stripped: the trailing carriage return is
retained. -/
theorem c10_carriage_return_retained (l rest : List Char) (h : '\n' ∉ l) :
    readLines (l ++ '\r' :: '\n' :: rest) = (rest, some (l ++ ['\r'])) := by
  have h2 : '\n' ∉ l ++ ['\r'] := by
    intro hm
    rcases List.mem_append.mp hm with hm1 | hm2
    · exact h hm1
    · simp at hm2
  have h3 := readLines_line (l ++ ['\r']) rest h2
  rw [List.append_assoc] at h3
  simpa using h3

theorem c10_carriage_return_retained_witness :
    ('\n' ∉ (['a', 'b', 'c'] : List Char))
    ∧ readLines (['a', 'b', 'c'] ++ '\r' :: '\n' :: []) =
      ([], some (['a', 'b', 'c'] ++ ['\r'])) :=
  ⟨by decide, c10_carriage_return_retained ['a', 'b', 'c'] [] (by decide)⟩

end GotailSpec
